import Mathlib

/-!
Verification of the SCORCH batch consensus scoring pipeline
(src/scoring.py) against its natural-language specification.

The embedding below translates the pure core of `scoring.py` into Lean:

* `multiple_pose_check` — the pose extractor (lines 166-192);
* `enumerateTasks`      — the task enumeration step of `scoring` (lines 706-713);
* `binary_concat`       — the streaming feature assembler (lines 275-303);
* `run_networks`        — the network-ensemble scorer (lines 194-221);
* `mergeInner`, `consensusStage`, `scoringTail`
                        — the consensus aggregation tail of `scoring`
                          (lines 727-756).

Python strings are modelled as `String`/`List Char`, pandas DataFrames of
float64 feature values as lists of rational-valued rows (the assembler and
aggregator only move values around, so exact arithmetic mirrors the float
computation bit-for-bit on the inputs considered), fallible code as
`Option`, and filesystem effects of the assembler as explicit booleans.
-/

namespace SCORCH

/-! ## Python string primitives -/

/-- Characters removed by Python `str.strip()` with no argument. -/
def pySpace (c : Char) : Bool :=
  c = ' ' || c = '\t' || c = '\n' || c = '\r' || c = '\x0b' || c = '\x0c'

/-- Python `str.strip()`: drop leading and trailing whitespace. -/
def pyStrip (l : List Char) : List Char :=
  ((l.dropWhile pySpace).reverse.dropWhile pySpace).reverse

/-- Python `str.isnumeric()` (restricted to ASCII digits, which is exact for
the ASCII pdbqt text this pipeline parses): true iff the string is nonempty
and every character is a digit. -/
def pyIsNumeric (l : List Char) : Bool :=
  !l.isEmpty && l.all Char.isDigit

/-- Worker for `pySplit`; the fuel is an upper bound on the input length, so
the fuel-exhausted branch is unreachable for the initial call. -/
def pySplitAux (sep : List Char) : Nat → List Char → List Char → List (List Char)
  | 0, s, acc => [acc.reverse ++ s]
  | fuel + 1, s, acc =>
    match s with
    | [] => [acc.reverse]
    | c :: rest =>
      if sep.isPrefixOf (c :: rest) then
        acc.reverse :: pySplitAux sep fuel (List.drop sep.length (c :: rest)) []
      else
        pySplitAux sep fuel rest (c :: acc)

/-- Python `str.split(sep)` for a nonempty separator: split on each
left-to-right non-overlapping occurrence of `sep`. -/
def pySplit (sep s : List Char) : List (List Char) :=
  pySplitAux sep s.length s []

/-- Python `sub in s`: `sub` occurs as a contiguous substring of `s`. -/
def pyInStr (sub s : List Char) : Bool :=
  (List.range (s.length + 1)).any (fun i => sub.isPrefixOf (s.drop i))

/-! ## Pose extractor -/

/-- Embedding of `multiple_pose_check` (src/scoring.py lines 166-192), with
the ligand file's text passed in place of the file path.  The text is split
on the `MODEL` marker; in each segment, lines that are purely numeric after
stripping and lines containing `ENDMDL` are dropped; segments with fewer
than 3 remaining lines are discarded; the retained segments are re-joined
with newlines and finally tagged with a pose suffix computed — exactly as
the Python does via `list.index` — from the position of the first block
equal to the given one. -/
def multiple_pose_check (ligText : String) : List (String × String) :=
  let blocks := (pySplit "MODEL".data ligText.data).filterMap (fun pose =>
    let cleanLines := (pySplit ['\n'] pose).filter
      (fun line => !(pyIsNumeric (pyStrip line)) && !(pyInStr "ENDMDL".data line))
    if cleanLines.length < 3 then none
    else some (String.mk (List.intercalate ['\n'] cleanLines)))
  blocks.map (fun x => ("_pose_" ++ toString (blocks.findIdx (fun b => b == x) + 1), x))

/-! ## Task enumeration -/

/-- One work item: (receptor path, ligand path, (pose suffix, pose block)). -/
abbrev WorkItem := String × String × (String × String)

/-- The Python list comprehension `[pose[0] for pose in poses]`: the first
retained pose of every record, failing (IndexError) if any record has no
retained pose. -/
def firstPoses : List (List (String × String)) → Option (List (String × String))
  | [] => some []
  | p :: ps =>
    match p with
    | [] => none
    | x :: _ => (firstPoses ps).map (fun rest => x :: rest)

/-- Embedding of the task-enumeration step of `scoring`
(src/scoring.py lines 706-713).  `readFile` supplies each ligand file's
text.  With the first-pose-only flag the items are the zip of receptors,
ligands and each record's first pose (an empty record is a fatal
IndexError); otherwise each record contributes the product of its receptor,
its path and all of its retained poses, chained into one flat list. -/
def enumerateTasks (pose1 : Bool) (receptors ligands : List String)
    (readFile : String → String) : Option (List WorkItem) :=
  let poses := ligands.map (fun l => multiple_pose_check (readFile l))
  if pose1 then
    (firstPoses poses).map (fun firsts => receptors.zip (ligands.zip firsts))
  else
    some ((receptors.zip (ligands.zip poses)).flatMap
      (fun rlp => rlp.2.2.map (fun p => (rlp.1, rlp.2.1, p))))

/-! ## Streaming feature assembler -/

/-- A pandas DataFrame of float64 feature values: ordered column names and
row-major numeric entries. -/
structure Df where
  headers : List String
  rows : List (List ℚ)
deriving DecidableEq

/-- Result of one `binary_concat` invocation: the returned table (`none`
models an uncaught exception) and whether the scratch file
`utils/temp/features.bin` was removed before the function was left. -/
structure ConcatResult where
  output : Option Df
  scratchDeleted : Bool
deriving DecidableEq

/-- `np.frombuffer(...).reshape(totalRows, cols)` on an exactly-fitting
buffer: row `i` is the `cols`-wide slice starting at offset `i * cols`. -/
def reshapeRows (totalRows cols : Nat) (buf : List ℚ) : List (List ℚ) :=
  (List.range totalRows).map (fun i => (buf.drop (i * cols)).take cols)

/-- Embedding of `binary_concat` (src/scoring.py lines 275-303).  The write
loop coerces each frame's `nRot` column to numeric (the identity on the
numeric values modelled here, but a fatal KeyError when the column is
absent), appends the frame's row-major float64 values to the scratch
buffer, and remembers the *last* frame's column count (and dtype — a single
shared float64 dtype in this model).  The read phase reinterprets the whole
buffer as a `(total_rows, fixed_total_columns)` matrix — a fatal ValueError
unless the buffer size fits exactly — and labels it with the caller's
headers, which pandas requires to match the column count.  `removeOk`
models whether the final `os.remove` of the scratch file succeeds; when it
raises, the exception propagates and the reconstructed frame is lost.  The
empty-input case leaves `fixed_total_columns` unbound, a fatal NameError. -/
def binary_concat (dfs : List Df) (headers : List String) (removeOk : Bool) :
    ConcatResult :=
  if ∀ df ∈ dfs, "nRot" ∈ df.headers then
    match dfs.getLast? with
    | none => ⟨none, false⟩
    | some lastDf =>
      let buf := dfs.flatMap (fun df => df.rows.flatten)
      let totalRows := (dfs.map (fun df => df.rows.length)).sum
      let cols := lastDf.headers.length
      if buf.length = totalRows * cols ∧ headers.length = cols then
        if removeOk then ⟨some ⟨headers, reshapeRows totalRows cols buf⟩, true⟩
        else ⟨none, false⟩
      else ⟨none, false⟩
  else ⟨none, false⟩

/-- The specification's reference result: direct row-wise concatenation of
the frames under the fixed headers. -/
def rowConcat (dfs : List Df) (headers : List String) : Df :=
  ⟨headers, dfs.flatMap Df.rows⟩

/-! ## Ensemble scorer (network families) -/

/-- A column-wise prediction frame: ordered (column name, column values)
pairs, as the pandas DataFrame built up a column at a time in
`run_networks`. -/
abbrev PredDf := List (String × List ℚ)

/-- pandas `frame[cols].mean(axis=1)`: for each of the `nrows` row indices,
the arithmetic mean of that row's values across the given columns. -/
def rowwiseMean (cols : List (List ℚ)) (nrows : Nat) : List ℚ :=
  (List.range nrows).map (fun j => ((cols.map (fun c => c.getD j 0)).sum) / cols.length)

/-- Embedding of `run_networks` (src/scoring.py lines 194-221).  External
model loading and inference are abstracted: `y_preds` lists each loaded
submodel's flattened predictions over the shared feature frame, in ranking
order.  The loop adds one column `name_i` (1-indexed) per submodel, and a
final `name_best_average` column holding the row-wise mean of the submodel
columns. -/
def run_networks (y_preds : List (List ℚ)) (model_name : String) : PredDf :=
  let model_columns := (List.range y_preds.length).map
    (fun i => model_name ++ "_" ++ toString (i + 1))
  let nrows := (y_preds.headD []).length
  List.zip model_columns y_preds ++
    [(model_name ++ "_best_average", rowwiseMean y_preds nrows)]

/-- Arithmetic mean of a list, as the specification states it. -/
def arithMean (l : List ℚ) : ℚ := l.sum / l.length

/-! ## Consensus aggregator -/

/-- A prediction table as produced by `score`: the two identity columns
(Receptor, Ligand) as the row key, plus ordered value columns. -/
structure PTable where
  valHeaders : List String
  rows : List ((String × String) × List ℚ)
deriving DecidableEq

/-- pandas `pd.merge(x, y, on=['Receptor','Ligand'])` (the default inner
join): for each left row in order, one output row per right row with the
same identity pair, carrying the left value columns then the right ones. -/
def mergeInner (x y : PTable) : PTable :=
  ⟨x.valHeaders ++ y.valHeaders,
   x.rows.flatMap (fun rx =>
     (y.rows.filter (fun ry => decide (ry.1 = rx.1))).map
       (fun ry => (rx.1, rx.2 ++ ry.2)))⟩

/-- The fixed representative columns the consensus is computed over
(src/scoring.py lines 738-740). -/
def multi_models : List String :=
  ["xgbscore_multi", "mlpscore_multi_best_average", "wdscore_multi_best_average"]

/-- Value of the named column in a row of `t` (first occurrence, as pandas
column selection on the unduplicated headers used here). -/
def colVal (t : PTable) (vals : List ℚ) (name : String) : ℚ :=
  match t.valHeaders.findIdx? (fun h => h == name) with
  | some i => vals.getD i 0
  | none => 0

/-- pandas row-wise `.mean(axis=1)` of one row's values. -/
def pandasRowMean (vs : List ℚ) : ℚ := vs.sum / vs.length

/-- Population variance (the square of pandas `.std(axis=1, ddof=0)`). -/
def pandasRowVar (vs : List ℚ) : ℚ :=
  ((vs.map (fun v => (v - pandasRowMean vs) ^ 2)).sum) / vs.length

/-- pandas `.std(axis=1, ddof=0)`: the population standard deviation. -/
noncomputable def pandasRowStd (vs : List ℚ) : ℝ :=
  Real.sqrt ((pandasRowVar vs : ℚ) : ℝ)

/-- pandas row-wise `.max(axis=1)` of one row's values. -/
def rowMaxD : List ℚ → ℚ
  | [] => 0
  | v :: rest => rest.foldl max v

/-- pandas row-wise `.min(axis=1)` of one row's values. -/
def rowMinD : List ℚ → ℚ
  | [] => 0
  | v :: rest => rest.foldl min v

/-- One row of the final result table: identity pair, the merged value
columns, and the three appended consensus statistics. -/
structure ConsRow where
  key : String × String
  vals : List ℚ
  cmean : ℚ
  cstdev : ℝ
  crange : ℚ

/-- The final result table: the merged value headers (the three consensus
statistics live in the dedicated `ConsRow` fields). -/
structure ConsTable where
  valHeaders : List String
  rows : List ConsRow

/-- Embedding of the consensus step (src/scoring.py lines 736-744): select
the three fixed representative columns — a fatal KeyError (`none`) when any
is absent — then append to every row the row-wise mean, population standard
deviation and max-minus-min range of those three values. -/
noncomputable def consensusStage (t : PTable) : Option ConsTable :=
  if ∀ name ∈ multi_models, name ∈ t.valHeaders then
    some ⟨t.valHeaders,
      t.rows.map (fun r =>
        let vs := multi_models.map (colVal t r.2)
        ⟨r.1, r.2, pandasRowMean vs, pandasRowStd vs, rowMaxD vs - rowMinD vs⟩)⟩
  else none

/-- Embedding of the aggregation tail of `scoring` (src/scoring.py lines
727-744): `reduce` the per-family prediction tables with the pairwise inner
merge (a fatal TypeError on an empty list), then run the consensus step. -/
noncomputable def scoringTail (model_results : List PTable) : Option ConsTable :=
  match model_results with
  | [] => none
  | r :: rest => consensusStage (rest.foldl mergeInner r)

/-- The three model families of the pipeline. -/
inductive Family
  | xgb
  | mlp
  | wd
deriving DecidableEq

/-- The value-column names `score` produces for one family
(src/scoring.py lines 485-496): the single raw prediction column for the
tree ensemble, and the `run_networks` columns for a network family scored
with `n` submodels. -/
def scoreValHeaders (n : Nat) : Family → List String
  | Family.xgb => ["xgbscore_multi"]
  | Family.mlp =>
      ((List.range n).map (fun i => "mlpscore_multi" ++ "_" ++ toString (i + 1))) ++
        ["mlpscore_multi_best_average"]
  | Family.wd =>
      ((List.range n).map (fun i => "wdscore_multi" ++ "_" ++ toString (i + 1))) ++
        ["wdscore_multi_best_average"]

/-- The representative column of each family entering the consensus. -/
def repCol : Family → String
  | Family.xgb => "xgbscore_multi"
  | Family.mlp => "mlpscore_multi_best_average"
  | Family.wd => "wdscore_multi_best_average"

/-! ## Helper lemmas -/

/-- A list containing an empty record has no sequence of first poses. -/
theorem firstPoses_eq_none_of_mem_nil {ps : List (List (String × String))}
    (h : [] ∈ ps) : firstPoses ps = none := by
  induction ps with
  | nil => cases h
  | cons p rest ih =>
    rcases List.mem_cons.mp h with h1 | h1
    · rw [← h1]; rfl
    · cases p with
      | nil => rfl
      | cons x xs => simp [firstPoses, ih h1]

/-- When every record has a retained pose, the firsts are defined and are in
one-to-one correspondence with the records. -/
theorem firstPoses_eq_some_of_ne_nil {ps : List (List (String × String))}
    (h : ∀ p ∈ ps, p ≠ []) : ∃ fs, firstPoses ps = some fs ∧ fs.length = ps.length := by
  induction ps with
  | nil => exact ⟨[], rfl, rfl⟩
  | cons p rest ih =>
    obtain ⟨fs, hfs, hlen⟩ := ih (fun q hq => h q (List.mem_cons_of_mem _ hq))
    cases p with
    | nil => exact absurd rfl (h [] (List.mem_cons_self _ _))
    | cons x xs => exact ⟨x :: fs, by simp [firstPoses, hfs], by simp [hlen]⟩

/-- In the zip of a list with its image under `f`, the second component of
every pair is the image of the first. -/
theorem snd_eq_of_mem_zip_self_map {α β : Type} (f : α → β) :
    ∀ {l : List α} {p : α × β}, p ∈ l.zip (l.map f) → p.2 = f p.1 := by
  intro l p hp
  have h1 : l.zip (l.map f) = l.map (fun a => (a, f a)) := by
    have := List.zip_map' (fun a => a) f l
    simpa using this
  rw [h1] at hp
  rcases List.mem_map.mp hp with ⟨a, _, ha⟩
  rw [← ha]

/-- Item count of the pose-expanded enumeration over a screen-mode zip. -/
theorem enum_expand_length (r : String) (f : String → List (String × String)) :
    ∀ ls : List String,
      (((List.replicate ls.length r).zip (ls.zip (ls.map f))).flatMap
        (fun rlp => rlp.2.2.map (fun p => (rlp.1, rlp.2.1, p)))).length =
      (ls.map (fun l => (f l).length)).sum := by
  intro ls
  induction ls with
  | nil => rfl
  | cons a as ih =>
    simp only [List.length_cons, List.replicate_succ, List.map_cons, List.zip_cons_cons,
      List.flatMap_cons, List.length_append, List.length_map, List.sum_cons]
    rw [ih]

/-! ## Claim C2 -/

/-- C2: on a ligand record whose text splits into two identical valid pose
segments, the pose extractor returns the right number of blocks but tags
both with the suffix `_pose_1` (Python `list.index` finds the first equal
block), so the suffixes are neither the 1-based positions nor unique within
the record, contradicting the claimed `_pose_1..K` numbering. -/
theorem claim_C2_theorem :
    multiple_pose_check "X\nY\nZMODELX\nY\nZ" =
      [("_pose_1", "X\nY\nZ"), ("_pose_1", "X\nY\nZ")] := by decide

/-! ## Claim C3 -/

/-- C3 (counterexample): with the first-pose-only flag unset, a run whose
first ligand record has zero retained pose segments does not fail — the
enumeration silently skips that ligand and proceeds with the remaining
work items, contradicting the claimed fatal input error. -/
theorem claim_C3_counterexample :
    enumerateTasks false ["r", "r"] ["bad", "good"]
      (fun l => if l = "bad" then "" else "X\nY\nZ") =
      some [("r", "good", ("_pose_1", "X\nY\nZ"))] := by decide

/-- C3 (amended): a ligand record with zero retained pose segments is fatal
(an IndexError, hence no output) only when the first-pose-only flag is set;
otherwise the enumeration always succeeds and such a record simply
contributes no work items — every enumerated item comes from a record with
at least one retained pose — so the run silently skips the record and
continues with the remaining work items. -/
theorem claim_C3_amended (receptors ligands : List String) (readFile : String → String) :
    ((∃ l ∈ ligands, multiple_pose_check (readFile l) = []) →
      enumerateTasks true receptors ligands readFile = none) ∧
    ∃ items, enumerateTasks false receptors ligands readFile = some items ∧
      ∀ it ∈ items, multiple_pose_check (readFile it.2.1) ≠ [] := by
  constructor
  · rintro ⟨l, hl, hempty⟩
    have hmem : [] ∈ ligands.map (fun l => multiple_pose_check (readFile l)) :=
      List.mem_map.mpr ⟨l, hl, hempty⟩
    simp only [enumerateTasks, if_pos]
    rw [firstPoses_eq_none_of_mem_nil hmem]
    rfl
  · refine ⟨_, rfl, ?_⟩
    intro it hit
    rcases List.mem_flatMap.mp hit with ⟨rlp, hrlp, hmem⟩
    rcases List.mem_map.mp hmem with ⟨p, hp, hpeq⟩
    have h2 := (List.of_mem_zip hrlp).2
    have h3 := snd_eq_of_mem_zip_self_map (fun l => multiple_pose_check (readFile l)) h2
    rw [← hpeq]
    show multiple_pose_check (readFile rlp.2.1) ≠ []
    intro hnil
    rw [h3] at hp
    have hp2 : p ∈ multiple_pose_check (readFile rlp.2.1) := hp
    rw [hnil] at hp2
    cases hp2

/-- C3 (witness): the amended statement evaluated on a concrete run with one
empty and one valid ligand record. -/
theorem claim_C3_witness :
    (enumerateTasks true ["r", "r"] ["bad", "good"]
        (fun l => if l = "bad" then "" else "X\nY\nZ") = none) ∧
    ∃ items, enumerateTasks false ["r", "r"] ["bad", "good"]
        (fun l => if l = "bad" then "" else "X\nY\nZ") = some items ∧
      ∀ it ∈ items,
        multiple_pose_check ((fun l => if l = "bad" then "" else "X\nY\nZ") it.2.1) ≠ [] :=
  ⟨(claim_C3_amended ["r", "r"] ["bad", "good"] _).1 (by decide),
   (claim_C3_amended ["r", "r"] ["bad", "good"] _).2⟩

/-! ## Claim C8 -/

/-- C8: in screen mode (one receptor duplicated across N ligand records),
the enumeration yields exactly N work items when the first-pose-only flag
is set (given every record has a retained pose), and exactly the sum of the
records' retained pose counts when it is unset. -/
theorem claim_C8 (r : String) (ligands : List String) (readFile : String → String) :
    ((∀ l ∈ ligands, multiple_pose_check (readFile l) ≠ []) →
      ∃ items, enumerateTasks true (List.replicate ligands.length r) ligands readFile =
          some items ∧ items.length = ligands.length) ∧
    ∃ items, enumerateTasks false (List.replicate ligands.length r) ligands readFile =
        some items ∧
      items.length = (ligands.map (fun l => (multiple_pose_check (readFile l)).length)).sum := by
  constructor
  · intro h
    have hps : ∀ p ∈ ligands.map (fun l => multiple_pose_check (readFile l)), p ≠ [] := by
      intro p hp
      rcases List.mem_map.mp hp with ⟨l, hl, hleq⟩
      rw [← hleq]; exact h l hl
    obtain ⟨fs, hfs, hlen⟩ := firstPoses_eq_some_of_ne_nil hps
    refine ⟨(List.replicate ligands.length r).zip (ligands.zip fs), ?_, ?_⟩
    · show (firstPoses (ligands.map fun l => multiple_pose_check (readFile l))).map
          (fun firsts => (List.replicate ligands.length r).zip (ligands.zip firsts)) = _
      rw [hfs]
      rfl
    · rw [List.length_map] at hlen
      simp [List.length_zip, hlen]
  · exact ⟨_, rfl, enum_expand_length r (fun l => multiple_pose_check (readFile l)) ligands⟩

/-- C8 (witness): a concrete screen run with records of 1 and 2 retained
poses — 2 items with the flag set, 3 with it unset. -/
theorem claim_C8_witness :
    (∃ items, enumerateTasks true ["r", "r"] ["a", "b"]
        (fun l => if l = "a" then "X\nY\nZ" else "X\nY\nZMODELX\nY\nZ") = some items ∧
      items.length = 2) ∧
    ∃ items, enumerateTasks false ["r", "r"] ["a", "b"]
        (fun l => if l = "a" then "X\nY\nZ" else "X\nY\nZMODELX\nY\nZ") = some items ∧
      items.length = 3 := by
  have h := claim_C8 "r" ["a", "b"]
    (fun l => if l = "a" then "X\nY\nZ" else "X\nY\nZMODELX\nY\nZ")
  refine ⟨h.1 (by decide), ?_⟩
  obtain ⟨items, h1, h2⟩ := h.2
  exact ⟨items, h1, by rw [h2]; decide⟩

/-! ## Claim C1 -/

/-- C1 (counterexample): with the identity pair ("r","l2") present in the
tree family's PredictionTable but absent from the two network families',
the aggregation tail completes and returns an output table containing only
("r","l1") — the mismatched row is silently omitted, with no fatal
error. -/
theorem claim_C1_counterexample :
    (scoringTail
      [⟨["xgbscore_multi"], [(("r", "l1"), [1]), (("r", "l2"), [2])]⟩,
       ⟨["mlpscore_multi_1", "mlpscore_multi_best_average"], [(("r", "l1"), [3, 3])]⟩,
       ⟨["wdscore_multi_1", "wdscore_multi_best_average"], [(("r", "l1"), [5, 5])]⟩]).map
      (fun out => out.rows.map ConsRow.key) = some [("r", "l1")] := by rfl

/-- C1 (amended): the consolidation step is an inner join — an identity
pair appears among the merged rows exactly when it appears in both tables,
so a pair present in one family's PredictionTable but absent from another's
is silently dropped from the output rather than causing a failure (the
merge is a total function with no error path). -/
theorem claim_C1_amended (x y : PTable) (k : String × String) :
    k ∈ (mergeInner x y).rows.map Prod.fst ↔
      k ∈ x.rows.map Prod.fst ∧ k ∈ y.rows.map Prod.fst := by
  simp only [mergeInner, List.mem_map, List.mem_flatMap, List.mem_filter,
    decide_eq_true_eq]
  constructor
  · rintro ⟨row, ⟨rx, hrx, ry, ⟨hry, hkey⟩, hreq⟩, hk⟩
    rw [← hk, ← hreq]
    exact ⟨⟨rx, hrx, rfl⟩, ⟨ry, hry, hkey⟩⟩
  · rintro ⟨⟨rx, hrx, hkx⟩, ⟨ry, hry, hky⟩⟩
    exact ⟨(rx.1, rx.2 ++ ry.2), ⟨rx, hrx, ry, ⟨hry, hky.trans hkx.symm⟩, rfl⟩, hkx⟩

/-! ## Claims C4, C5, C9 (streaming feature assembler) -/

/-- Reshaping the flattened rows at their common width recovers the rows. -/
theorem reshapeRows_flatten (cols : Nat) :
    ∀ rs : List (List ℚ), (∀ r ∈ rs, r.length = cols) →
      reshapeRows rs.length cols rs.flatten = rs := by
  intro rs
  induction rs with
  | nil => intro _; rfl
  | cons r rest ih =>
    intro h
    have hr : r.length = cols := h r (List.mem_cons_self _ _)
    have hrest := ih (fun x hx => h x (List.mem_cons_of_mem _ hx))
    simp only [reshapeRows, List.length_cons, List.flatten_cons] at hrest ⊢
    rw [List.range_succ_eq_map, List.map_cons, List.map_map]
    congr 1
    · rw [Nat.zero_mul, List.drop_zero, List.take_left' hr]
    · calc (List.range rest.length).map
            ((fun i => (List.drop (i * cols) (r ++ rest.flatten)).take cols) ∘ Nat.succ)
          = (List.range rest.length).map
            (fun i => (List.drop (i * cols) rest.flatten).take cols) := by
            apply List.map_congr_left
            intro i _
            show (List.drop (i.succ * cols) (r ++ rest.flatten)).take cols = _
            rw [Nat.succ_mul, Nat.add_comm, ← hr, List.drop_append]
        _ = rest := hrest

/-- The flat scratch buffer is the flattening of the concatenated rows. -/
theorem flatMap_rows_flatten (dfs : List Df) :
    (dfs.flatMap fun df => df.rows.flatten) = (dfs.flatMap Df.rows).flatten := by
  induction dfs with
  | nil => rfl
  | cons d ds ih => simp only [List.flatMap_cons, List.flatten_append, ih]

/-- Sum of a constant-valued map. -/
theorem sum_map_const_of {α : Type} (l : List α) (f : α → Nat) (c : Nat)
    (h : ∀ x ∈ l, f x = c) : (l.map f).sum = l.length * c := by
  induction l with
  | nil => simp
  | cons a as ih =>
    simp only [List.map_cons, List.sum_cons, List.length_cons,
      h a (List.mem_cons_self _ _), ih fun x hx => h x (List.mem_cons_of_mem _ hx)]
    ring

/-- C4 (counterexample): a single FeatureRecord whose shared schema lacks
the `nRot` column makes the assembler fail (a KeyError in the write loop),
so its result is not the direct row-wise concatenation, which is a
perfectly well-formed table. -/
theorem claim_C4_counterexample :
    (binary_concat [⟨["a", "b", "c"], [[1, 2, 3]]⟩] ["a", "b", "c"] true).output ≠
      some (rowConcat [⟨["a", "b", "c"], [[1, 2, 3]]⟩] ["a", "b", "c"]) := by decide

/-- C4 (amended): for every non-empty sequence of FeatureRecords sharing
one schema that contains the `nRot` column (with rectangular rows, as any
pandas frame has), the binary-buffer assembler succeeds and returns exactly
the direct row-wise concatenation: same headers in the same order, rows in
write order, values unchanged. -/
theorem claim_C4_amended (dfs : List Df) (schema : List String)
    (hne : dfs ≠ [])
    (hhead : ∀ df ∈ dfs, df.headers = schema)
    (hrect : ∀ df ∈ dfs, ∀ r ∈ df.rows, r.length = schema.length)
    (hnrot : "nRot" ∈ schema) :
    binary_concat dfs schema true = ⟨some (rowConcat dfs schema), true⟩ := by
  have hlast0 := List.getLast?_eq_getLast_of_ne_nil hne
  have hlastmem := List.getLast_mem hne
  have hcols : (dfs.getLast hne).headers = schema := hhead _ hlastmem
  have hrows : ∀ r ∈ dfs.flatMap Df.rows, r.length = schema.length := by
    intro r hr
    rcases List.mem_flatMap.mp hr with ⟨df, hdf, hrdf⟩
    exact hrect df hdf r hrdf
  have hlen : (dfs.flatMap Df.rows).length = (dfs.map fun df => df.rows.length).sum := by
    rw [List.length_flatMap]
    rfl
  have hbuf : (dfs.flatMap fun df => df.rows.flatten).length =
      ((dfs.map fun df => df.rows.length).sum) * schema.length := by
    rw [flatMap_rows_flatten, List.length_flatten, ← hlen]
    exact sum_map_const_of _ _ _ hrows
  unfold binary_concat
  rw [if_pos fun df hdf => (hhead df hdf) ▸ hnrot, hlast0]
  dsimp only
  rw [if_pos ⟨by rw [hcols]; exact hbuf, by rw [hcols]⟩, if_pos rfl, hcols]
  have hre : reshapeRows ((dfs.map fun df => df.rows.length).sum)
      schema.length (dfs.flatMap fun df => df.rows.flatten) =
      dfs.flatMap Df.rows := by
    rw [flatMap_rows_flatten, ← hlen]
    exact reshapeRows_flatten _ _ hrows
  rw [hre]
  rfl

/-- C4 (witness): the amended statement evaluated on two concrete records
sharing the schema `[nRot, a]`. -/
theorem claim_C4_witness :
    binary_concat [⟨["nRot", "a"], [[1, 2]]⟩, ⟨["nRot", "a"], [[3, 4], [5, 6]]⟩]
        ["nRot", "a"] true =
      ⟨some (rowConcat [⟨["nRot", "a"], [[1, 2]]⟩, ⟨["nRot", "a"], [[3, 4], [5, 6]]⟩]
        ["nRot", "a"]), true⟩ :=
  claim_C4_amended _ _ (by decide) (by decide) (by decide) (by decide)

/-- C5 (counterexample): three records with mismatched column counts
(2, 4 and 3) whose total value count happens to factor as
4 rows x 3 columns: the assembler raises no schema error and returns a
table silently built from the mismatched records, splicing values across
record boundaries. -/
theorem claim_C5_counterexample :
    binary_concat
      [⟨["nRot", "a"], [[1, 2]]⟩,
       ⟨["nRot", "b", "c", "d"], [[3, 4, 5, 6]]⟩,
       ⟨["nRot", "e", "f"], [[7, 8, 9], [10, 11, 12]]⟩]
      ["nRot", "e", "f"] true =
    ⟨some ⟨["nRot", "e", "f"], [[1, 2, 3], [4, 5, 6], [7, 8, 9], [10, 11, 12]]⟩, true⟩ := by
  decide

/-- C5 (amended): the assembler has no per-record schema check; assembling
records with mismatched column counts fails only when the flattened value
count does not equal total rows times the last record's column count (the
reshape then raises), and otherwise silently returns a table built from the
mismatched records. -/
theorem claim_C5_amended (dfs : List Df) (headers : List String) (removeOk : Bool)
    (lastDf : Df) (hlast : dfs.getLast? = some lastDf)
    (hnrot : ∀ df ∈ dfs, "nRot" ∈ df.headers)
    (hmis : (dfs.flatMap fun df => df.rows.flatten).length ≠
      ((dfs.map fun df => df.rows.length).sum) * lastDf.headers.length) :
    binary_concat dfs headers removeOk = ⟨none, false⟩ := by
  unfold binary_concat
  rw [if_pos hnrot, hlast]
  dsimp only
  rw [if_neg]
  intro hand
  exact hmis hand.1

/-- C5 (witness): the amended failure condition evaluated on two concrete
records with column counts 2 and 4 (5 values cannot fill a 2 x 4 matrix). -/
theorem claim_C5_witness :
    binary_concat [⟨["nRot", "a"], [[1, 2]]⟩, ⟨["nRot", "b", "c", "d"], [[3, 4, 5, 6]]⟩]
      ["nRot", "b", "c", "d"] true = ⟨none, false⟩ :=
  claim_C5_amended _ _ _ ⟨["nRot", "b", "c", "d"], [[3, 4, 5, 6]]⟩ (by decide) (by decide)
    (by decide)

/-- Every `binary_concat` call either fails with the scratch file left in
place, or succeeds with the scratch file removed after a successful
`os.remove`. -/
theorem binary_concat_cases (dfs : List Df) (headers : List String) (removeOk : Bool) :
    binary_concat dfs headers removeOk = ⟨none, false⟩ ∨
      (removeOk = true ∧ ∃ t, binary_concat dfs headers removeOk = ⟨some t, true⟩) := by
  unfold binary_concat
  by_cases h1 : ∀ df ∈ dfs, "nRot" ∈ df.headers
  · rw [if_pos h1]
    cases dfs.getLast? with
    | none => exact Or.inl rfl
    | some lastDf =>
      dsimp only
      by_cases h2 : (dfs.flatMap fun df => df.rows.flatten).length =
          ((dfs.map fun df => df.rows.length).sum) * lastDf.headers.length ∧
          headers.length = lastDf.headers.length
      · rw [if_pos h2]
        cases removeOk with
        | false => exact Or.inl (by rw [if_neg]; simp)
        | true => exact Or.inr ⟨rfl, _, by rw [if_pos rfl]⟩
      · rw [if_neg h2]
        exact Or.inl rfl
  · rw [if_neg h1]
    exact Or.inl rfl

/-- C9 (counterexample): when reconstruction fails (here the reshape
raises because 5 values cannot fill a 2 x 3 matrix), the scratch buffer is
not deleted — `os.remove` is only reached on the success path — so the
buffer is not released on the error path as claimed. -/
theorem claim_C9_counterexample :
    binary_concat [⟨["nRot", "a"], [[1, 2]]⟩, ⟨["nRot", "b", "c"], [[3, 4, 5]]⟩]
      ["nRot", "b", "c"] true = ⟨none, false⟩ := by decide

/-- C9 (amended): the scratch buffer is deleted before the assembler
returns only on the success path with a successful deletion — whenever the
buffer was deleted, the deletion succeeded and a table was returned — and a
deletion failure is an uncaught fatal error that also loses the
already-reconstructed in-memory table. -/
theorem claim_C9_amended (dfs : List Df) (headers : List String) :
    (∀ removeOk, (binary_concat dfs headers removeOk).scratchDeleted = true →
      removeOk = true ∧ ∃ t, (binary_concat dfs headers removeOk).output = some t) ∧
    (binary_concat dfs headers false).output = none := by
  constructor
  · intro removeOk h
    rcases binary_concat_cases dfs headers removeOk with hc | ⟨hr, t, hc⟩
    · rw [hc] at h
      cases h
    · exact ⟨hr, t, by rw [hc]⟩
  · rcases binary_concat_cases dfs headers false with hc | ⟨hr, _, _⟩
    · rw [hc]
    · cases hr

/-- C9 (witness): the amended statement evaluated on a concrete record
whose assembly succeeds; with a working `os.remove` the buffer is deleted
and a table returned, and with a failing one no table is returned. -/
theorem claim_C9_witness :
    (true = true ∧
      ∃ t, (binary_concat [⟨["nRot"], [[5]]⟩] ["nRot"] true).output = some t) ∧
    (binary_concat [⟨["nRot"], [[5]]⟩] ["nRot"] false).output = none :=
  ⟨(claim_C9_amended [⟨["nRot"], [[5]]⟩] ["nRot"]).1 true (by decide),
   (claim_C9_amended [⟨["nRot"], [[5]]⟩] ["nRot"]).2⟩

/-! ## Claim C6 -/

/-- C6: a network family scored with N submodels yields columns named
`name_1` through `name_N` followed by `name_best_average`, and the
best-average column's value at every row index is the arithmetic mean of
that row's N submodel predictions. -/
theorem claim_C6 (model_name : String) (y_preds : List (List ℚ)) (m : Nat)
    (hN : 0 < y_preds.length) (hlen : ∀ v ∈ y_preds, v.length = m) :
    (run_networks y_preds model_name).map Prod.fst =
      ((List.range y_preds.length).map fun i => model_name ++ "_" ++ toString (i + 1)) ++
        [model_name ++ "_best_average"] ∧
    ∃ best, (run_networks y_preds model_name).getLast? =
        some (model_name ++ "_best_average", best) ∧
      best.length = m ∧
      ∀ j, j < m → best.getD j 0 = arithMean (y_preds.map fun v => v.getD j 0) := by
  have hnrows : (y_preds.headD []).length = m := by
    cases y_preds with
    | nil => cases hN
    | cons v vs => exact hlen v (List.mem_cons_self _ _)
  constructor
  · simp only [run_networks, List.map_append]
    rw [List.map_fst_zip _ _ (by simp)]
    rfl
  · refine ⟨rowwiseMean y_preds (y_preds.headD []).length, ?_, ?_, ?_⟩
    · exact List.getLast?_concat _
    · simp only [rowwiseMean, List.length_map, List.length_range]
      exact hnrows
    · intro j hj
      have hget : (rowwiseMean y_preds (y_preds.headD []).length).getD j 0 =
          ((y_preds.map fun v => v.getD j 0).sum) / y_preds.length := by
        rw [rowwiseMean, List.getD_eq_getElem?_getD, List.getElem?_map,
          List.getElem?_range (by rw [hnrows]; exact hj)]
        rfl
      rw [hget, arithMean, List.length_map]

/-- C6 (witness): the claim evaluated at two concrete submodel prediction
vectors for the `mlpscore_multi` family. -/
theorem claim_C6_witness :
    (run_networks [[1, 3], [3, 5]] "mlpscore_multi").map Prod.fst =
      ((List.range ([[1, 3], [3, 5]] : List (List ℚ)).length).map
        fun i => "mlpscore_multi" ++ "_" ++ toString (i + 1)) ++
        ["mlpscore_multi" ++ "_best_average"] ∧
    ∃ best, (run_networks [[1, 3], [3, 5]] "mlpscore_multi").getLast? =
        some ("mlpscore_multi" ++ "_best_average", best) ∧
      best.length = 2 ∧
      ∀ j, j < 2 → best.getD j 0 =
        arithMean (([[1, 3], [3, 5]] : List (List ℚ)).map fun v => v.getD j 0) :=
  claim_C6 "mlpscore_multi" [[1, 3], [3, 5]] 2 (by decide) (by decide)

/-! ## Claim C7 -/

/-- C7: in every row of the consensus output, the mean field is the
arithmetic mean, the stdev field is the population (ddof = 0) standard
deviation, and the range field is max minus min, of the row's three
representative prediction values; in particular values 3, 5, 4 give mean 4,
range 2, and stdev the square root of 2/3, within 1/1000 of 0.8165. -/
theorem claim_C7 (t : PTable) (out : ConsTable) (cr : ConsRow) (a b c : ℚ)
    (hout : consensusStage t = some out) (hcr : cr ∈ out.rows)
    (hvals : multi_models.map (colVal t cr.vals) = [a, b, c]) :
    cr.cmean = (a + b + c) / 3 ∧
    cr.cstdev = Real.sqrt
      (((((a - (a + b + c) / 3) ^ 2 + (b - (a + b + c) / 3) ^ 2 +
        (c - (a + b + c) / 3) ^ 2) / 3 : ℚ) : ℝ)) ∧
    cr.crange = max a (max b c) - min a (min b c) ∧
    (a = 3 → b = 5 → c = 4 →
      cr.cmean = 4 ∧ cr.crange = 2 ∧ cr.cstdev ^ 2 = 2 / 3 ∧
        |cr.cstdev - 0.8165| < 1 / 1000) := by
  rw [consensusStage] at hout
  by_cases hguard : ∀ name ∈ multi_models, name ∈ t.valHeaders
  · rw [if_pos hguard] at hout
    injection hout with hout
    rw [← hout] at hcr
    rcases List.mem_map.mp hcr with ⟨r, _, hr⟩
    have hv : multi_models.map (colVal t r.2) = [a, b, c] := by
      rw [← hr] at hvals
      exact hvals
    have hmean : cr.cmean = (a + b + c) / 3 := by
      rw [← hr]
      show pandasRowMean (multi_models.map (colVal t r.2)) = _
      rw [hv, pandasRowMean]
      simp only [List.sum_cons, List.sum_nil, List.length_cons, List.length_nil]
      push_cast
      ring
    have hq : pandasRowVar [a, b, c] =
        ((a - (a + b + c) / 3) ^ 2 + (b - (a + b + c) / 3) ^ 2 +
          (c - (a + b + c) / 3) ^ 2) / 3 := by
      rw [pandasRowVar, pandasRowMean]
      simp only [List.map_cons, List.map_nil, List.sum_cons, List.sum_nil,
        List.length_cons, List.length_nil]
      push_cast
      ring
    have hstd : cr.cstdev = Real.sqrt
        (((((a - (a + b + c) / 3) ^ 2 + (b - (a + b + c) / 3) ^ 2 +
          (c - (a + b + c) / 3) ^ 2) / 3 : ℚ) : ℝ)) := by
      rw [← hr]
      show pandasRowStd (multi_models.map (colVal t r.2)) = _
      rw [hv, pandasRowStd, hq]
    have hrange : cr.crange = max a (max b c) - min a (min b c) := by
      rw [← hr]
      show rowMaxD (multi_models.map (colVal t r.2)) -
          rowMinD (multi_models.map (colVal t r.2)) = _
      rw [hv]
      show max (max a b) c - min (min a b) c = _
      rw [max_assoc, min_assoc]
    refine ⟨hmean, hstd, hrange, ?_⟩
    rintro rfl rfl rfl
    have hval : ((((3 : ℚ) - (3 + 5 + 4) / 3) ^ 2 + ((5 : ℚ) - (3 + 5 + 4) / 3) ^ 2 +
        ((4 : ℚ) - (3 + 5 + 4) / 3) ^ 2) / 3 : ℚ) = 2 / 3 := by norm_num
    have hstd2 : cr.cstdev = Real.sqrt ((2 / 3 : ℝ)) := by
      rw [hstd, hval]
      norm_num
    refine ⟨by rw [hmean]; norm_num, by rw [hrange]; norm_num, ?_, ?_⟩
    · rw [hstd2, Real.sq_sqrt (by norm_num)]
    · have hlo : (0.8155 : ℝ) < Real.sqrt ((2 / 3 : ℝ)) :=
        (Real.lt_sqrt (by norm_num)).mpr (by norm_num)
      have hhi : Real.sqrt ((2 / 3 : ℝ)) < (0.8175 : ℝ) :=
        (Real.sqrt_lt' (by norm_num)).mpr (by norm_num)
      rw [hstd2]
      rw [abs_lt]
      constructor <;> [linarith; linarith]
  · rw [if_neg hguard] at hout
    cases hout

/-- C7 (witness): the claim evaluated at a concrete one-row merged table
with representative values 3, 5 and 4. -/
theorem claim_C7_witness :
    ∃ out cr, consensusStage
        ⟨["xgbscore_multi", "mlpscore_multi_best_average", "wdscore_multi_best_average"],
         [(("r", "l"), [3, 5, 4])]⟩ = some out ∧ cr ∈ out.rows ∧
      cr.cmean = 4 ∧ cr.crange = 2 ∧ cr.cstdev ^ 2 = 2 / 3 ∧
        |cr.cstdev - 0.8165| < 1 / 1000 := by
  refine ⟨_, _, rfl, List.mem_singleton_self _, ?_⟩
  have h := claim_C7
    ⟨["xgbscore_multi", "mlpscore_multi_best_average", "wdscore_multi_best_average"],
     [(("r", "l"), [3, 5, 4])]⟩ _ _ 3 5 4 rfl (List.mem_singleton_self _) (by decide)
  exact h.2.2.2 rfl rfl rfl

/-! ## Claim C10 -/

/-- Value headers accumulate left to right under the reduced merge. -/
theorem foldl_mergeInner_valHeaders (t0 : PTable) (ts : List PTable) :
    (ts.foldl mergeInner t0).valHeaders = t0.valHeaders ++ ts.flatMap PTable.valHeaders := by
  induction ts generalizing t0 with
  | nil => simp
  | cons u us ih =>
    rw [List.foldl_cons, ih, List.flatMap_cons, ← List.append_assoc]
    rfl

/-- A string starting with one character differs from any extension of a
string starting with another. -/
theorem append_ne_of_head_ne (b t s : String) (c d : Char)
    (hb : b.data.head? = some c) (hs : s.data.head? = some d) (h : c ≠ d) :
    b ++ t ≠ s := by
  intro he
  obtain ⟨bs, hbs⟩ : ∃ bs, b.data = c :: bs := by
    cases hbd : b.data with
    | nil => rw [hbd] at hb; cases hb
    | cons x xs =>
      rw [hbd] at hb
      injection hb with hb
      exact ⟨xs, by rw [hb]⟩
  have hd : (b ++ t).data = c :: (bs ++ t.data) := by
    show b.data ++ t.data = _
    rw [hbs]
    rfl
  rw [he] at hd
  rw [hd] at hs
  simp only [List.head?_cons, Option.some.injEq] at hs
  exact h hs

/-- The representative column of a family never occurs among the columns
`score` produces for a different family. -/
theorem repCol_not_mem (n : Nat) {f g : Family} (hfg : g ≠ f) :
    repCol f ∉ scoreValHeaders n g := by
  intro hmem
  cases f with
  | xgb =>
    cases g with
    | xgb => exact hfg rfl
    | mlp =>
      simp only [repCol, scoreValHeaders] at hmem
      rcases List.mem_append.mp hmem with h | h
      · rcases List.mem_map.mp h with ⟨i, _, hi⟩
        exact append_ne_of_head_ne ("mlpscore_multi" ++ "_") (toString (i + 1))
          "xgbscore_multi" 'm' 'x' (by decide) (by decide) (by decide) hi
      · exact absurd (List.mem_singleton.mp h) (by decide)
    | wd =>
      simp only [repCol, scoreValHeaders] at hmem
      rcases List.mem_append.mp hmem with h | h
      · rcases List.mem_map.mp h with ⟨i, _, hi⟩
        exact append_ne_of_head_ne ("wdscore_multi" ++ "_") (toString (i + 1))
          "xgbscore_multi" 'w' 'x' (by decide) (by decide) (by decide) hi
      · exact absurd (List.mem_singleton.mp h) (by decide)
  | mlp =>
    cases g with
    | xgb =>
      simp only [repCol, scoreValHeaders] at hmem
      exact absurd (List.mem_singleton.mp hmem) (by decide)
    | mlp => exact hfg rfl
    | wd =>
      simp only [repCol, scoreValHeaders] at hmem
      rcases List.mem_append.mp hmem with h | h
      · rcases List.mem_map.mp h with ⟨i, _, hi⟩
        exact append_ne_of_head_ne ("wdscore_multi" ++ "_") (toString (i + 1))
          "mlpscore_multi_best_average" 'w' 'm' (by decide) (by decide) (by decide) hi
      · exact absurd (List.mem_singleton.mp h) (by decide)
  | wd =>
    cases g with
    | xgb =>
      simp only [repCol, scoreValHeaders] at hmem
      exact absurd (List.mem_singleton.mp hmem) (by decide)
    | mlp =>
      simp only [repCol, scoreValHeaders] at hmem
      rcases List.mem_append.mp hmem with h | h
      · rcases List.mem_map.mp h with ⟨i, _, hi⟩
        exact append_ne_of_head_ne ("mlpscore_multi" ++ "_") (toString (i + 1))
          "wdscore_multi_best_average" 'm' 'w' (by decide) (by decide) (by decide) hi
      · exact absurd (List.mem_singleton.mp h) (by decide)
    | wd => exact hfg rfl

/-- C10: the consensus step reads exactly the three fixed representative
columns; if the prediction tables entering the aggregation tail come from
any requested family set that misses one of the three families, the missing
family's representative column is absent from the merged table and the run
fails there with a missing-column error instead of producing a consensus
over the requested subset. -/
theorem claim_C10 (req : List Family) (n : Nat) (tabs : List PTable) (f : Family)
    (hne : tabs ≠ [])
    (hmiss : f ∉ req)
    (hmatch : ∀ t ∈ tabs, ∃ g ∈ req, t.valHeaders = scoreValHeaders n g) :
    scoringTail tabs = none := by
  cases tabs with
  | nil => exact absurd rfl hne
  | cons t0 ts =>
    have hnotin : repCol f ∉ (ts.foldl mergeInner t0).valHeaders := by
      rw [foldl_mergeInner_valHeaders]
      intro hmem
      rcases List.mem_append.mp hmem with h | h
      · obtain ⟨g, hg, heq⟩ := hmatch t0 (List.mem_cons_self _ _)
        have hgf : g ≠ f := fun he => hmiss (he ▸ hg)
        exact repCol_not_mem n hgf (heq ▸ h)
      · rcases List.mem_flatMap.mp h with ⟨u, hu, hmem2⟩
        obtain ⟨g, hg, heq⟩ := hmatch u (List.mem_cons_of_mem _ hu)
        have hgf : g ≠ f := fun he => hmiss (he ▸ hg)
        exact repCol_not_mem n hgf (heq ▸ hmem2)
    have hrep : repCol f ∈ multi_models := by cases f <;> decide
    show consensusStage (ts.foldl mergeInner t0) = none
    rw [consensusStage, if_neg]
    intro hguard
    exact hnotin (hguard (repCol f) hrep)

/-- C10 (witness): a run that scored only the tree and mlp families (two
submodels requested for the networks) fails at the consensus stage. -/
theorem claim_C10_witness :
    scoringTail
      [⟨["xgbscore_multi"], [(("r", "l"), [1])]⟩,
       ⟨["mlpscore_multi_1", "mlpscore_multi_best_average"], [(("r", "l"), [2, 2])]⟩] =
      none :=
  claim_C10 [Family.xgb, Family.mlp] 1 _ Family.wd (by decide) (by decide) (by decide)

end SCORCH
